import Mathlib

/-!
Shallow embedding of the `transient` VM launcher (files
`transient/configuration.py` and `transient/transient.py`) used to check the
specification's claims about configuration resolution and session
orchestration.
-/

set_option autoImplicit false

namespace Transient

/-! ## Python value model

Configuration values that occur in this program: `None`, booleans, integers,
strings, and tuples/lists of strings (CLI multi-options arrive as tuples,
file options as lists).  Python equality distinguishes `[]` from `()`
(`[] == ()` is `False`), which the constructor distinction models. -/

inductive PyValue where
  | none
  | bool (b : Bool)
  | int (n : Int)
  | str (s : String)
  | tuple (xs : List String)
  | list (xs : List String)
  deriving DecidableEq, Repr

/-- `_option_was_set_in_cli` (configuration.py:132-138):
`if option is None or option == () or option is False: return False` /
`return True`.  `option == ()` is Python tuple equality, so only the empty
tuple (not an empty list) matches. -/
def optionWasSetInCli (option : PyValue) : Bool :=
  if option = PyValue.none ∨ option = PyValue.tuple [] ∨ option = PyValue.bool false then
    false
  else
    true

/-- Python `dict` with insertion order: an association list whose keys are
unique in any dict produced by the program. -/
abbrev Dict := List (String × PyValue)

/-- `d[k]` as a total lookup: the value at the first matching key. -/
def dictGet : Dict → String → Option PyValue
  | [], _ => Option.none
  | (k₁, v₁) :: rest, k => if k₁ = k then Option.some v₁ else dictGet rest k

/-- `d[k] = v`: replace the value at an existing key (order preserved), or
append a fresh binding. -/
def dictSet : Dict → String → PyValue → Dict
  | [], k, v => [(k, v)]
  | (k₁, v₁) :: rest, k, v =>
    if k₁ = k then (k₁, v) :: rest else (k₁, v₁) :: dictSet rest k v

/-- `_TransientConfigSchema.remove_unset_options` (configuration.py:68-79):
builds a new dict keeping exactly the items for which
`_option_was_set_in_cli(config[option])` holds (for a dict,
`config[option]` is the item's own value). -/
def removeUnsetOptions : Dict → Dict
  | [] => []
  | (k, v) :: rest =>
    if optionWasSetInCli v then (k, v) :: removeUnsetOptions rest
    else removeUnsetOptions rest

/-- The loop of `_consolidate_cli_args_and_config_file`
(configuration.py:238-242), iterating over the file-derived config's items
and mutating `cli_args`.  `cli_args[option]` raises `KeyError` when the key
is absent, modelled by `Except Unit`. -/
def consolidateAux (acc : Dict) : List (String × PyValue) → Except Unit Dict
  | [] => Except.ok acc
  | (option, value) :: rest =>
    match dictGet acc option with
    | Option.none => Except.error ()
    | Option.some cur =>
      if (option = "qemu_args" ∧ cur = PyValue.tuple []) ∨ optionWasSetInCli cur = false then
        consolidateAux (dictSet acc option value) rest
      else
        consolidateAux acc rest

/-- `_consolidate_cli_args_and_config_file` (configuration.py:231-244),
parameterised by the already-loaded file configuration (the function itself
obtains it from `_load_config_file(cli_args["config"])`). -/
def consolidateCliArgsAndConfigFile (cliArgs : Dict) (config : Dict) : Except Unit Dict :=
  consolidateAux cliArgs config

/-! ## Config-file parsing errors

Exception classes relevant to `_parse_config_file` (configuration.py:194-206).
`toml.loads` reports a syntax error by raising `toml.TomlDecodeError`, which
the `toml` library declares as a subclass of `ValueError`;
`ConfigFileParsingError` (configuration.py:12-17) subclasses `Exception`.
Neither is a subclass of `RuntimeError`. -/

inductive PyExc where
  | tomlDecodeError (msg : String)
  | configFileParsingError (msg : String)
  deriving DecidableEq, Repr

/-- Python `isinstance(e, RuntimeError)` for the exceptions above: false for
both, per the class hierarchies of the `toml` library and of
configuration.py. -/
def PyExc.isRuntimeError : PyExc → Bool
  | PyExc.tomlDecodeError _ => false
  | PyExc.configFileParsingError _ => false

/-- A TOML document, already shaped as a flat option dict (the part of the
TOML grammar the claims need). -/
abbrev TomlDoc := Dict

/-- `toml.loads`, parameterised by the concrete TOML grammar `parse`; on a
syntax error it raises `toml.TomlDecodeError` carrying the parser's
message. -/
def tomlLoads (parse : String → Except String TomlDoc) (text : String) :
    Except PyExc TomlDoc :=
  match parse text with
  | Except.ok doc => Except.ok doc
  | Except.error msg => Except.error (PyExc.tomlDecodeError msg)

/-- `_parse_config_file` (configuration.py:194-206) applied to the file's
text: `try: toml.loads(...) except RuntimeError as error: raise
ConfigFileParsingError(error)`.  An exception that is not a `RuntimeError`
propagates unchanged past the `except` clause. -/
def parseConfigFile (parse : String → Except String TomlDoc) (text : String) :
    Except PyExc TomlDoc :=
  match tomlLoads parse text with
  | Except.ok doc => Except.ok doc
  | Except.error e =>
    if e.isRuntimeError then
      Except.error (PyExc.configFileParsingError (toString (repr e)))
    else
      Except.error e

/-! ## File-line diagnostics for invalid options -/

/-- Python `needle in hay` on strings (substring containment), over character
lists. -/
def containsSeq (needle : List Char) : List Char → Bool
  | [] => needle.isEmpty
  | c :: rest => needle.isPrefixOf (c :: rest) || containsSeq needle rest

/-- `str.replace("_", "-")` over a line of characters. -/
def replaceUnderscoresWithHyphens (s : List Char) : List Char :=
  s.map (fun c => if c = '_' then '-' else c)

/-- Loop of `_get_line_number_of_option_in_config_file`
(configuration.py:141-149): `enumerate(config_file, start=1)` with an early
`return line_number` on the first line containing the option. -/
def getLineNumberAux (option : List Char) : List (List Char) → Nat → Int
  | [], _ => -1
  | line :: rest, n =>
    if containsSeq option line then (n : Int) else getLineNumberAux option rest (n + 1)

/-- `_get_line_number_of_option_in_config_file` (configuration.py:141-149),
with the file given as its list of lines; returns `-1` when no line contains
the option. -/
def getLineNumberOfOptionInConfigFile (option : List Char) (lines : List (List Char)) : Int :=
  getLineNumberAux option lines 1

/-- One `logging.error` emitted by
`_log_error_message_for_invalid_config_file_option`. -/
inductive LogMessage where
  | invalidOptionOnLine (lineNumber : Int) (option : List Char)
  | invalidOption (option : List Char)
  deriving DecidableEq, Repr

/-- Body of the loop of `_log_error_message_for_invalid_config_file_option`
(configuration.py:158-172) for one offending option: hyphenate it, look up
its line, and log with the line number exactly when one was found. -/
def logErrorMessageForOption (option : List Char) (lines : List (List Char)) : LogMessage :=
  let hyphenated := replaceUnderscoresWithHyphens option
  let lineNumber := getLineNumberOfOptionInConfigFile hyphenated lines
  if lineNumber ≠ -1 then
    LogMessage.invalidOptionOnLine lineNumber hyphenated
  else
    LogMessage.invalidOption hyphenated

/-- `_log_error_message_for_invalid_config_file_option`
(configuration.py:152-172): one message per offending option, in order. -/
def logErrorMessagesForInvalidConfigFileOptions
    (options : List (List Char)) (lines : List (List Char)) : List LogMessage :=
  options.map (fun option => logErrorMessageForOption option lines)

/-! ## VM session orchestrator (transient.py)

`TransientVm.run` is embedded as a function from the resolved run
configuration and an oracle for the external collaborators (image store,
kernel port allocator, remote-shell exit status, hypervisor exit status, OS
path/user lookups) to an event trace plus exit code, or a raised
exception. -/

/-- `image.ImageInfo` as used here: the provisioned image's resolved path. -/
structure ImageInfo where
  path : String
  deriving DecidableEq, Repr

/-- `ssh.SshConfig` as constructed in `__qemu_added_devices`
(transient.py:58-61). -/
structure SshConfig where
  host : String
  port : Nat
  user : Option String
  ssh_bin_name : Option String
  deriving DecidableEq, Repr

/-- The resolved run configuration (fields of `config` that
`TransientVm` reads), typed as the validated `_TransientRunConfigSchema`
guarantees. -/
structure RunConfig where
  image : List String
  name : Option String
  prepare_only : Bool
  ssh_console : Bool
  ssh_with_serial : Bool
  ssh_command : Option String
  ssh_port : Option Nat
  ssh_user : Option String
  ssh_bin_name : Option String
  ssh_timeout : Option Nat
  shared_folder : List String
  qemu_args : List String
  deriving DecidableEq, Repr

/-- External collaborators and environment lookups, fixed per session. -/
structure Oracle where
  /-- `store.create_vm_image(image_name, vm_name, idx)` (image store). -/
  createVmImage : String → Option String → Nat → ImageInfo
  /-- The port the kernel assigns in `__allocate_random_port`. -/
  randomPort : Nat
  /-- `os.path.abspath`. -/
  abspath : String → String
  /-- `pwd.getpwuid(os.getuid()).pw_name` (`__current_user`). -/
  currentUser : String
  /-- `conn.returncode` of the interactive ssh connection in `__connect_ssh`. -/
  connReturncode : Int
  /-- `qemu_runner.wait()`: the hypervisor process's own exit status. -/
  qemuWaitCode : Int

/-- Observable calls `TransientVm.run` makes on its collaborators, in
program order. -/
inductive Event where
  | createImage (imageName : String) (vmName : Option String) (idx : Nat) (info : ImageInfo)
  | startQemu (args : List String) (quiet : Bool) (silenceable : Bool)
  | sshfsMount (localDir : String) (remoteDir : String) (localUser : String) (cfg : SshConfig)
  | connectSsh (cfg : SshConfig) (command : Option String)
  | silenceQemu
  | sshShutdown
  | qemuWaitTimeout (timeout : Nat)
  deriving DecidableEq, Repr

/-- Exceptions `run` can raise: a failed `assert`, or the `ValueError` from
unpacking `shared_spec.split(":")` into exactly two names
(transient.py:138). -/
inductive RunExc where
  | assertionError
  | valueError
  deriving DecidableEq, Repr

/-- `__needs_ssh` (transient.py:33-37). -/
def needsSsh (config : RunConfig) : Bool :=
  config.ssh_console || config.ssh_command.isSome || config.ssh_with_serial ||
    decide (config.shared_folder.length > 0)

/-- `__needs_ssh_console` (transient.py:39-42). -/
def needsSshConsole (config : RunConfig) : Bool :=
  config.ssh_console || config.ssh_with_serial || config.ssh_command.isSome

/-- The `-drive`/`file=` pairs built by the loop at transient.py:46-47, one
pair per provisioned image in order. -/
def driveArgs (images : List ImageInfo) : List String :=
  images.flatMap (fun image => ["-drive", "file=" ++ image.path])

/-- The ssh port used by `__qemu_added_devices` (transient.py:53-56): the
configured port, else the randomly allocated one. -/
def usedSshPort (config : RunConfig) (randomPort : Nat) : Nat :=
  match config.ssh_port with
  | Option.none => randomPort
  | Option.some p => p

/-- The `hostfwd` netdev argument string built at transient.py:66. -/
def hostfwdArg (port : Nat) : String :=
  "user,id=transient-sshdev,hostfwd=tcp::" ++ toString port ++ "-:22"

/-- The four network-forwarding arguments appended at transient.py:64-69. -/
def netdevArgs (port : Nat) : List String :=
  ["-netdev", hostfwdArg port, "-device", "e1000,netdev=transient-sshdev"]

/-- `__qemu_added_devices` (transient.py:44-71): returns the composed
argument list together with the `self.ssh_config` assignment it performs
(`none` when the ssh branch is not taken). -/
def qemuAddedDevices (config : RunConfig) (images : List ImageInfo) (randomPort : Nat) :
    List String × Option SshConfig :=
  let newArgs := driveArgs images
  if needsSsh config then
    let newArgs := if needsSshConsole config then newArgs ++ ["-nographic"] else newArgs
    let sshPort := usedSshPort config randomPort
    let sshConfig : SshConfig :=
      { host := "localhost", port := sshPort, user := config.ssh_user,
        ssh_bin_name := config.ssh_bin_name }
    (newArgs ++ netdevArgs sshPort, Option.some sshConfig)
  else
    (newArgs, Option.none)

/-- The `qemu_quiet, qemu_silenceable` selection (transient.py:124-129). -/
def qemuOutputPolicy (config : RunConfig) : Bool × Bool :=
  if needsSshConsole config then
    if config.ssh_with_serial then (false, true) else (true, false)
  else
    (false, false)

/-- `added_qemu_args + self.config.qemu_args` (transient.py:121). -/
def fullQemuArgs (config : RunConfig) (images : List ImageInfo) (randomPort : Nat) :
    List String :=
  (qemuAddedDevices config images randomPort).1 ++ config.qemu_args

/-- `__create_images` (transient.py:29-31): one `create_vm_image` call per
name, with the ordinal index from `enumerate`. -/
def createImages (config : RunConfig) (o : Oracle) : List ImageInfo :=
  config.image.enum.map (fun p => o.createVmImage p.2 config.name p.1)

/-- The provisioning calls of `__create_images` as trace events. -/
def createImageEvents (config : RunConfig) (o : Oracle) : List Event :=
  config.image.enum.map
    (fun p => Event.createImage p.2 config.name p.1 (o.createVmImage p.2 config.name p.1))

/-- `splitAux sep [] s` is Python `str.split(sep)` over characters:
`"".split(":") == [""]`, and every separator starts a new field. -/
def splitAux (sep : Char) (acc : List Char) : List Char → List (List Char)
  | [] => [acc.reverse]
  | c :: rest =>
    if c = sep then acc.reverse :: splitAux sep [] rest
    else splitAux sep (c :: acc) rest

/-- Python `s.split(sep)` for a one-character separator. -/
def pySplit (sep : Char) (s : String) : List String :=
  (splitAux sep [] s.data).map String.mk

/-- The shared-folder mount loop (transient.py:136-147): per spec, assert
`ssh_config is not None`, unpack `shared_spec.split(":")` into
`local, remote` (a `ValueError` if the split does not have exactly two
parts), and call `sshfs.do_sshfs_mount` with the absolute local path and the
current user. -/
def mountSharedFolders (o : Oracle) (sshConfig : Option SshConfig) :
    List String → Except RunExc (List Event)
  | [] => Except.ok []
  | sharedSpec :: rest =>
    match sshConfig with
    | Option.none => Except.error RunExc.assertionError
    | Option.some sc =>
      match pySplit ':' sharedSpec with
      | [l, r] =>
        match mountSharedFolders o (Option.some sc) rest with
        | Except.error e => Except.error e
        | Except.ok events =>
          Except.ok (Event.sshfsMount (o.abspath l) r o.currentUser sc :: events)
      | _ => Except.error RunExc.valueError

/-- `__connect_ssh` (transient.py:84-95): assert `ssh_config` and
`qemu_runner` are set, connect (optionally carrying `ssh_command`), silence
the hypervisor console, wait, and return `conn.returncode`. -/
def connectSsh (config : RunConfig) (o : Oracle) (sshConfig : Option SshConfig)
    (qemuRunner : Option Unit) : Except RunExc (List Event × Int) :=
  match sshConfig with
  | Option.none => Except.error RunExc.assertionError
  | Option.some sc =>
    match qemuRunner with
    | Option.none => Except.error RunExc.assertionError
    | Option.some _ =>
      Except.ok ([Event.connectSsh sc config.ssh_command, Event.silenceQemu], o.connReturncode)

/-- `TransientVm.run` (transient.py:111-161). -/
def run (config : RunConfig) (o : Oracle) : Except RunExc (List Event × Int) :=
  let provisionEvents := createImageEvents config o
  if config.prepare_only then
    Except.ok (provisionEvents, 0)
  else
    let vmImages := createImages config o
    let added := qemuAddedDevices config vmImages o.randomPort
    let sshConfig := added.2
    let fullArgs := added.1 ++ config.qemu_args
    let policy := qemuOutputPolicy config
    let qemuRunner : Option Unit := Option.some ()
    let launchEvents := provisionEvents ++ [Event.startQemu fullArgs policy.1 policy.2]
    match mountSharedFolders o sshConfig config.shared_folder with
    | Except.error e => Except.error e
    | Except.ok mountEvents =>
      if needsSshConsole config then
        match connectSsh config o sshConfig qemuRunner with
        | Except.error e => Except.error e
        | Except.ok (sshEvents, returncode) =>
          Except.ok
            (launchEvents ++ mountEvents ++ sshEvents ++
              [Event.sshShutdown, Event.qemuWaitTimeout 10], returncode)
      else
        Except.ok (launchEvents ++ mountEvents, o.qemuWaitCode)

/-! ## Concrete sample data for evaluating the embedding -/

/-- A run configuration with every option at its schema default / unset
value. -/
def baseRunConfig : RunConfig where
  image := []
  name := Option.none
  prepare_only := false
  ssh_console := false
  ssh_with_serial := false
  ssh_command := Option.none
  ssh_port := Option.none
  ssh_user := Option.some "vagrant"
  ssh_bin_name := Option.some "ssh"
  ssh_timeout := Option.some 90
  shared_folder := []
  qemu_args := []

/-- Defaults plus one shared folder: the session needs ssh but no
interactive console. -/
def sharedFolderOnlyConfig : RunConfig :=
  { baseRunConfig with shared_folder := ["/host:/guest"] }

/-- Defaults plus an explicit ssh console request. -/
def consoleRunConfig : RunConfig :=
  { baseRunConfig with ssh_console := true }

/-- Defaults plus two images and a preparation-only request. -/
def prepareOnlyConfig : RunConfig :=
  { baseRunConfig with image := ["base", "overlay"], prepare_only := true }

/-- A deterministic collaborator oracle for concrete evaluations. -/
def sampleOracle : Oracle where
  createVmImage := fun imageName _ idx => { path := imageName ++ "-" ++ toString idx }
  randomPort := 4321
  abspath := fun s => "/abs/" ++ s
  currentUser := "tester"
  connReturncode := 3
  qemuWaitCode := 7

/-- A TOML grammar stub that rejects every input, standing in for
`toml.loads` applied to an invalid document. -/
def failingParse : String → Except String TomlDoc :=
  fun _ => Except.error "unclosed table"

/-- CLI argument dict: `ssh_user` explicitly given, `name` not given,
`qemu_args` left at its empty-tuple default, `image` explicitly given. -/
def sampleCliArgs : Dict :=
  [("name", PyValue.none), ("ssh_user", PyValue.str "alice"),
   ("qemu_args", PyValue.tuple []), ("image", PyValue.tuple ["base"])]

/-- File-derived config dict declaring `name`, `ssh_user` and
`qemu_args`. -/
def sampleFileConfig : Dict :=
  [("name", PyValue.str "db"), ("ssh_user", PyValue.str "root"),
   ("qemu_args", PyValue.list ["-m", "1G"])]

/-- The expected merge of `sampleCliArgs` with `sampleFileConfig`. -/
def sampleMerged : Dict :=
  [("name", PyValue.str "db"), ("ssh_user", PyValue.str "alice"),
   ("qemu_args", PyValue.list ["-m", "1G"]), ("image", PyValue.tuple ["base"])]

/-! ## Helper lemmas -/

theorem string_ne_of_head {s t : String} (h : s.data.head? ≠ t.data.head?) : s ≠ t :=
  fun e => h (congrArg (fun x => x.data.head?) e)

theorem head_data_file_append (p : String) : ("file=" ++ p).data.head? = Option.some 'f' := by
  rw [String.data_append]; rfl

theorem head_data_hostfwdArg (port : Nat) :
    (hostfwdArg port).data.head? = Option.some 'u' := by
  unfold hostfwdArg
  rw [String.data_append, String.data_append]; rfl

theorem mem_driveArgs {x : String} {images : List ImageInfo} (h : x ∈ driveArgs images) :
    x = "-drive" ∨ ∃ i ∈ images, x = "file=" ++ i.path := by
  simp only [driveArgs, List.mem_flatMap] at h
  obtain ⟨i, hi, hx⟩ := h
  simp only [List.mem_cons, List.mem_singleton] at hx
  rcases hx with hx | hx | hx
  · exact Or.inl hx
  · exact Or.inr ⟨i, hi, hx⟩
  · cases hx

theorem nographic_not_mem_driveArgs (images : List ImageInfo) :
    "-nographic" ∉ driveArgs images := by
  intro h
  rcases mem_driveArgs h with h | ⟨i, _, h⟩
  · exact absurd h (by decide)
  · exact string_ne_of_head (by rw [head_data_file_append]; decide) h.symm

theorem netdev_not_mem_driveArgs (images : List ImageInfo) :
    "-netdev" ∉ driveArgs images := by
  intro h
  rcases mem_driveArgs h with h | ⟨i, _, h⟩
  · exact absurd h (by decide)
  · exact string_ne_of_head (by rw [head_data_file_append]; decide) h.symm

theorem device_not_mem_driveArgs (images : List ImageInfo) :
    "-device" ∉ driveArgs images := by
  intro h
  rcases mem_driveArgs h with h | ⟨i, _, h⟩
  · exact absurd h (by decide)
  · exact string_ne_of_head (by rw [head_data_file_append]; decide) h.symm

theorem e1000_not_mem_driveArgs (images : List ImageInfo) :
    "e1000,netdev=transient-sshdev" ∉ driveArgs images := by
  intro h
  rcases mem_driveArgs h with h | ⟨i, _, h⟩
  · exact absurd h (by decide)
  · exact string_ne_of_head (by rw [head_data_file_append]; decide) h.symm

theorem hostfwdArg_not_mem_driveArgs (port : Nat) (images : List ImageInfo) :
    hostfwdArg port ∉ driveArgs images := by
  intro h
  rcases mem_driveArgs h with h | ⟨i, _, h⟩
  · exact string_ne_of_head (by rw [head_data_hostfwdArg]; decide) h
  · exact string_ne_of_head
      (by rw [head_data_hostfwdArg, head_data_file_append]; decide) h

theorem hostfwdArg_ne_nographic (port : Nat) : hostfwdArg port ≠ "-nographic" :=
  string_ne_of_head (by rw [head_data_hostfwdArg]; decide)

theorem hostfwdArg_ne_drive (port : Nat) : hostfwdArg port ≠ "-drive" :=
  string_ne_of_head (by rw [head_data_hostfwdArg]; decide)

theorem needsSsh_of_needsSshConsole {config : RunConfig}
    (h : needsSshConsole config = true) : needsSsh config = true := by
  unfold needsSshConsole at h
  unfold needsSsh
  rcases Bool.or_eq_true_iff.mp h with h' | h'
  · rcases Bool.or_eq_true_iff.mp h' with h'' | h''
    · simp [h'']
    · simp [h'']
  · simp [h']

theorem needsSsh_of_shared_folder {config : RunConfig}
    (h : config.shared_folder ≠ []) : needsSsh config = true := by
  unfold needsSsh
  have : config.shared_folder.length > 0 := List.length_pos.mpr h
  simp [this]

theorem shared_folder_eq_nil_of_not_needsSsh {config : RunConfig}
    (h : needsSsh config = false) : config.shared_folder = [] := by
  by_contra hne
  rw [needsSsh_of_shared_folder hne] at h
  cases h

theorem dictGet_dictSet_self : ∀ (d : Dict) (k : String) (v : PyValue),
    dictGet (dictSet d k v) k = Option.some v
  | [], k, v => by simp [dictSet, dictGet]
  | (k₁, v₁) :: rest, k, v => by
    by_cases h : k₁ = k
    · simp [dictSet, dictGet, h]
    · simp [dictSet, dictGet, h, dictGet_dictSet_self rest k v]

theorem dictGet_dictSet_ne : ∀ (d : Dict) {k₁ k : String} (v : PyValue), k₁ ≠ k →
    dictGet (dictSet d k₁ v) k = dictGet d k
  | [], k₁, k, v, h => by simp [dictSet, dictGet, h]
  | (k₂, v₂) :: rest, k₁, k, v, h => by
    by_cases h₂ : k₂ = k₁
    · subst h₂
      simp [dictSet, dictGet, h]
    · by_cases h₃ : k₂ = k
      · simp [dictSet, dictGet, h₂, h₃, Ne.symm h]
      · simp [dictSet, dictGet, h₂, h₃, dictGet_dictSet_ne rest v h]

theorem consolidateAux_dictGet_of_not_mem {k : String} :
    ∀ (l : List (String × PyValue)) (acc d : Dict),
      consolidateAux acc l = Except.ok d → (∀ kv ∈ l, kv.1 ≠ k) →
      dictGet d k = dictGet acc k := by
  intro l
  induction l with
  | nil =>
    intro acc d h _
    simp only [consolidateAux] at h
    cases h
    rfl
  | cons kv rest ih =>
    intro acc d h hk
    obtain ⟨option, value⟩ := kv
    have hne : option ≠ k := hk (option, value) (List.mem_cons_self _ _)
    simp only [consolidateAux] at h
    cases hcur : dictGet acc option with
    | none => rw [hcur] at h; exact absurd h (by simp)
    | some cur =>
      rw [hcur] at h
      dsimp only at h
      by_cases hcond :
          (option = "qemu_args" ∧ cur = PyValue.tuple []) ∨ optionWasSetInCli cur = false
      · rw [if_pos hcond] at h
        rw [ih _ _ h (fun kv hkv => hk kv (List.mem_cons_of_mem _ hkv))]
        exact dictGet_dictSet_ne acc value hne
      · rw [if_neg hcond] at h
        exact ih _ _ h (fun kv hkv => hk kv (List.mem_cons_of_mem _ hkv))

theorem consolidateAux_cli_wins {k : String} {v : PyValue}
    (hset : optionWasSetInCli v = true)
    (hq : ¬(k = "qemu_args" ∧ v = PyValue.tuple [])) :
    ∀ (l : List (String × PyValue)) (acc d : Dict),
      consolidateAux acc l = Except.ok d → dictGet acc k = Option.some v →
      dictGet d k = Option.some v := by
  intro l
  induction l with
  | nil =>
    intro acc d h hacc
    simp only [consolidateAux] at h
    cases h
    exact hacc
  | cons kv rest ih =>
    intro acc d h hacc
    obtain ⟨option, value⟩ := kv
    simp only [consolidateAux] at h
    cases hcur : dictGet acc option with
    | none => rw [hcur] at h; exact absurd h (by simp)
    | some cur =>
      rw [hcur] at h
      dsimp only at h
      by_cases hko : option = k
      · subst hko
        have hcv : cur = v := by rw [hacc] at hcur; exact (Option.some.inj hcur).symm
        subst hcv
        have hcond :
            ¬((option = "qemu_args" ∧ cur = PyValue.tuple []) ∨
              optionWasSetInCli cur = false) := by
          rintro (⟨h1, h2⟩ | h1)
          · exact hq ⟨h1, h2⟩
          · rw [hset] at h1; cases h1
        rw [if_neg hcond] at h
        exact ih _ _ h hacc
      · by_cases hcond :
            (option = "qemu_args" ∧ cur = PyValue.tuple []) ∨ optionWasSetInCli cur = false
        · rw [if_pos hcond] at h
          refine ih _ _ h ?_
          rw [dictGet_dictSet_ne acc value hko]
          exact hacc
        · rw [if_neg hcond] at h
          exact ih _ _ h hacc

theorem consolidateAux_file_wins {k : String} {v w : PyValue}
    (hunset : optionWasSetInCli v = false) :
    ∀ (l : List (String × PyValue)) (acc d : Dict),
      consolidateAux acc l = Except.ok d → (l.map Prod.fst).Nodup →
      dictGet acc k = Option.some v → (k, w) ∈ l →
      dictGet d k = Option.some w := by
  intro l
  induction l with
  | nil =>
    intro acc d _ _ _ hmem
    cases hmem
  | cons kv rest ih =>
    intro acc d h hnodup hacc hmem
    obtain ⟨option, value⟩ := kv
    simp only [consolidateAux] at h
    rw [List.map_cons, List.nodup_cons] at hnodup
    rcases List.mem_cons.mp hmem with hmem | hmem
    · rw [show option = k from congrArg Prod.fst hmem.symm] at h hnodup
      rw [show value = w from congrArg Prod.snd hmem.symm] at h
      rw [hacc] at h
      dsimp only at h
      have hcond :
          (k = "qemu_args" ∧ v = PyValue.tuple []) ∨ optionWasSetInCli v = false :=
        Or.inr hunset
      rw [if_pos hcond] at h
      have hrest : ∀ kv ∈ rest, kv.1 ≠ k := by
        intro kv hkv heq
        have hkmem : kv.1 ∈ List.map Prod.fst rest := List.mem_map_of_mem Prod.fst hkv
        rw [heq] at hkmem
        exact hnodup.1 hkmem
      rw [consolidateAux_dictGet_of_not_mem rest _ d h hrest]
      exact dictGet_dictSet_self acc k w
    · have hko : option ≠ k := by
        intro heq
        subst heq
        have hkmem : (option, w).1 ∈ List.map Prod.fst rest :=
          List.mem_map_of_mem Prod.fst hmem
        exact hnodup.1 hkmem
      cases hcur : dictGet acc option with
      | none => rw [hcur] at h; exact absurd h (by simp)
      | some cur =>
        rw [hcur] at h
        dsimp only at h
        by_cases hcond :
            (option = "qemu_args" ∧ cur = PyValue.tuple []) ∨ optionWasSetInCli cur = false
        · rw [if_pos hcond] at h
          refine ih _ _ h hnodup.2 ?_ hmem
          rw [dictGet_dictSet_ne acc value hko]
          exact hacc
        · rw [if_neg hcond] at h
          exact ih _ _ h hnodup.2 hacc hmem

theorem optionWasSetInCli_eq_true_iff (v : PyValue) :
    optionWasSetInCli v = true ↔
      v ≠ PyValue.none ∧ v ≠ PyValue.tuple [] ∧ v ≠ PyValue.bool false := by
  by_cases h : v = PyValue.none ∨ v = PyValue.tuple [] ∨ v = PyValue.bool false
  · simp only [optionWasSetInCli, if_pos h, Bool.false_eq_true, false_iff]
    rintro ⟨h1, h2, h3⟩
    rcases h with h | h | h
    · exact h1 h
    · exact h2 h
    · exact h3 h
  · simp only [optionWasSetInCli, if_neg h, true_iff]
    push_neg at h
    exact h

theorem getLineNumberAux_of_no_match {option : List Char} :
    ∀ (lines : List (List Char)) (n : Nat),
      (∀ j, j < lines.length → containsSeq option (lines.getD j []) = false) →
      getLineNumberAux option lines n = -1 := by
  intro lines
  induction lines with
  | nil => intro n _; rfl
  | cons line rest ih =>
    intro n h
    have h0 : containsSeq option line = false := h 0 (by simp)
    simp only [getLineNumberAux, h0, Bool.false_eq_true, if_false]
    exact ih (n + 1) (fun j hj => by
      have := h (j + 1) (by simpa using Nat.succ_lt_succ hj)
      simpa using this)

theorem getLineNumberAux_of_first_match {option : List Char} :
    ∀ (lines : List (List Char)) (k n : Nat),
      k < lines.length →
      containsSeq option (lines.getD k []) = true →
      (∀ j, j < k → containsSeq option (lines.getD j []) = false) →
      getLineNumberAux option lines n = (n : Int) + (k : Int) := by
  intro lines
  induction lines with
  | nil => intro k n hk; cases hk
  | cons line rest ih =>
    intro k n hk hmatch hbefore
    cases k with
    | zero =>
      simp only [List.getD_cons_zero] at hmatch
      simp [getLineNumberAux, hmatch]
    | succ k' =>
      have h0 : containsSeq option line = false := by
        have := hbefore 0 (Nat.succ_pos k')
        simpa using this
      simp only [getLineNumberAux, h0, Bool.false_eq_true, if_false]
      have hk' : k' < rest.length := by simpa using Nat.lt_of_succ_lt_succ hk
      have hmatch' : containsSeq option (rest.getD k' []) = true := by
        simpa using hmatch
      have hbefore' : ∀ j, j < k' → containsSeq option (rest.getD j []) = false := by
        intro j hj
        have := hbefore (j + 1) (Nat.succ_lt_succ hj)
        simpa using this
      rw [ih k' (n + 1) hk' hmatch' hbefore']
      push_cast
      ring

theorem qemuAddedDevices_snd (config : RunConfig) (images : List ImageInfo) (p : Nat) :
    (qemuAddedDevices config images p).2 =
      if needsSsh config then
        Option.some
          { host := "localhost", port := usedSshPort config p,
            user := config.ssh_user, ssh_bin_name := config.ssh_bin_name }
      else Option.none := by
  unfold qemuAddedDevices
  by_cases h : needsSsh config <;> simp [h]

theorem mountSharedFolders_ne_assert (o : Oracle) (sc : SshConfig) :
    ∀ l : List String,
      mountSharedFolders o (Option.some sc) l ≠ Except.error RunExc.assertionError
  | [] => by simp [mountSharedFolders]
  | spec :: rest => by
    simp only [mountSharedFolders]
    cases hsplit : pySplit ':' spec with
    | nil => simp
    | cons a tl =>
      cases tl with
      | nil => simp
      | cons b tl2 =>
        cases tl2 with
        | nil =>
          cases hrec : mountSharedFolders o (Option.some sc) rest with
          | error e =>
            simp only []
            intro hcontra
            have : e = RunExc.assertionError := by
              injection hcontra
            exact mountSharedFolders_ne_assert o sc rest (this ▸ hrec)
          | ok evs => simp
        | cons c tl3 => simp

theorem connectSsh_returncode {config : RunConfig} {o : Oracle} {s : Option SshConfig}
    {q : Option Unit} {evs : List Event} {rc : Int}
    (h : connectSsh config o s q = Except.ok (evs, rc)) : rc = o.connReturncode := by
  cases s with
  | none => exact absurd h (by simp [connectSsh])
  | some sc =>
    cases q with
    | none => exact absurd h (by simp [connectSsh])
    | some u =>
      simp only [connectSsh] at h
      exact (Prod.mk.injEq _ _ _ _ ▸ (Except.ok.inj h)).2.symm

theorem startQemu_not_mem_createImageEvents (config : RunConfig) (o : Oracle)
    (args : List String) (q s : Bool) :
    Event.startQemu args q s ∉ createImageEvents config o := by
  simp [createImageEvents]

theorem mountSharedFolders_no_startQemu {o : Oracle} {s : Option SshConfig} :
    ∀ {l : List String} {evs : List Event},
      mountSharedFolders o s l = Except.ok evs →
      ∀ (args : List String) (q sil : Bool), Event.startQemu args q sil ∉ evs := by
  intro l
  induction l with
  | nil =>
    intro evs h args q sil
    cases s <;> · simp only [mountSharedFolders] at h; cases h; simp
  | cons spec rest ih =>
    intro evs h args q sil
    cases s with
    | none => simp only [mountSharedFolders] at h; cases h
    | some sc =>
      simp only [mountSharedFolders] at h
      cases hsplit : pySplit ':' spec with
      | nil => rw [hsplit] at h; cases h
      | cons a tl =>
        cases tl with
        | nil => rw [hsplit] at h; cases h
        | cons b tl2 =>
          cases tl2 with
          | nil =>
            rw [hsplit] at h
            cases hrec : mountSharedFolders o (Option.some sc) rest with
            | error e => rw [hrec] at h; cases h
            | ok evs' =>
              rw [hrec] at h
              dsimp only at h
              cases h
              intro hmem
              rcases List.mem_cons.mp hmem with heq | hmem'
              · cases heq
              · exact ih hrec args q sil hmem'
          | cons c tl3 => rw [hsplit] at h; cases h

theorem connectSsh_ok_events {config : RunConfig} {o : Oracle} {s : Option SshConfig}
    {qr : Option Unit} {evs : List Event} {rc : Int}
    (h : connectSsh config o s qr = Except.ok (evs, rc)) :
    ∃ sc, s = Option.some sc ∧
      evs = [Event.connectSsh sc config.ssh_command, Event.silenceQemu] := by
  cases s with
  | none => exact absurd h (by simp [connectSsh])
  | some sc =>
    cases qr with
    | none => exact absurd h (by simp [connectSsh])
    | some u =>
      simp only [connectSsh] at h
      refine ⟨sc, rfl, ?_⟩
      exact ((Prod.mk.injEq _ _ _ _ ▸ (Except.ok.inj h)).1).symm

theorem run_startQemu_spec (config : RunConfig) (o : Oracle) (tr : List Event) (code : Int)
    (h : run config o = Except.ok (tr, code)) :
    ∀ (args : List String) (q s : Bool), Event.startQemu args q s ∈ tr →
      args = fullQemuArgs config (createImages config o) o.randomPort ∧
      q = (qemuOutputPolicy config).1 ∧ s = (qemuOutputPolicy config).2 := by
  intro args q s hmem
  by_cases hp : config.prepare_only = true
  · simp only [run, hp, if_true] at h
    have htr : createImageEvents config o = tr := congrArg Prod.fst (Except.ok.inj h)
    rw [← htr] at hmem
    exact absurd hmem (startQemu_not_mem_createImageEvents config o args q s)
  · rw [Bool.not_eq_true] at hp
    simp only [run, hp, Bool.false_eq_true, if_false] at h
    cases hm : mountSharedFolders o
        (qemuAddedDevices config (createImages config o) o.randomPort).2
        config.shared_folder with
    | error e => rw [hm] at h; exact absurd h (by simp)
    | ok mountEvents =>
      rw [hm] at h
      dsimp only at h
      by_cases hc : needsSshConsole config = true
      · rw [if_pos hc] at h
        cases hcs : connectSsh config o
            (qemuAddedDevices config (createImages config o) o.randomPort).2
            (Option.some ()) with
        | error e => rw [hcs] at h; exact absurd h (by simp)
        | ok p =>
          obtain ⟨sshEvents, rc⟩ := p
          rw [hcs] at h
          dsimp only at h
          have htr := congrArg Prod.fst (Except.ok.inj h)
          dsimp only at htr
          rw [← htr] at hmem
          obtain ⟨sc, -, hevs⟩ := connectSsh_ok_events hcs
          simp only [List.mem_append, List.mem_cons, List.mem_singleton, List.not_mem_nil,
            or_false] at hmem
          rcases hmem with (((hmem | heq) | hmem) | hmem) | heq | heq
          · exact absurd hmem (startQemu_not_mem_createImageEvents config o args q s)
          · injection heq with h1 h2 h3
            exact ⟨h1, h2, h3⟩
          · exact absurd hmem (mountSharedFolders_no_startQemu hm args q s)
          · rw [hevs] at hmem
            rcases List.mem_cons.mp hmem with heq | hmem'
            · cases heq
            · rcases List.mem_singleton.mp hmem' with heq
              cases heq
          · cases heq
          · cases heq
      · rw [if_neg hc] at h
        have htr := congrArg Prod.fst (Except.ok.inj h)
        dsimp only at htr
        rw [← htr] at hmem
        simp only [List.mem_append, List.mem_singleton] at hmem
        rcases hmem with (hmem | hmem) | hmem
        · exact absurd hmem (startQemu_not_mem_createImageEvents config o args q s)
        · injection hmem with h1 h2 h3
          exact ⟨h1, h2, h3⟩
        · exact absurd hmem (mountSharedFolders_no_startQemu hm args q s)

theorem nographic_not_mem_netdevArgs (port : Nat) : "-nographic" ∉ netdevArgs port := by
  intro h
  simp only [netdevArgs, List.mem_cons, List.mem_singleton, List.not_mem_nil, or_false] at h
  rcases h with h | h | h | h
  · exact absurd h (by decide)
  · exact hostfwdArg_ne_nographic port h.symm
  · exact absurd h (by decide)
  · exact absurd h (by decide)

theorem optionWasSetInCli_eq_false_iff (v : PyValue) :
    optionWasSetInCli v = false ↔
      v = PyValue.none ∨ v = PyValue.tuple [] ∨ v = PyValue.bool false := by
  by_cases h : v = PyValue.none ∨ v = PyValue.tuple [] ∨ v = PyValue.bool false
  · simp only [optionWasSetInCli, if_pos h, true_iff]
    exact h
  · simp only [optionWasSetInCli, if_neg h, Bool.true_eq_false, false_iff]
    exact h

theorem needsSshConsole_of_serial {config : RunConfig}
    (h : config.ssh_with_serial = true) : needsSshConsole config = true := by
  simp [needsSshConsole, h]

theorem needsSshConsole_of_console {config : RunConfig}
    (h : config.ssh_console = true) : needsSshConsole config = true := by
  simp [needsSshConsole, h]

/-! ## Claims -/

/-- C1 (counterexample): with only a non-empty `shared_folder` (no console,
no serial bridging, no remote command), `__needs_ssh` holds and the composed
arguments contain the `-netdev` forwarding pair but NOT `-nographic` — the
claim requires both to be present whenever any of the four interactive
features holds, so it fails on this input. -/
theorem shared_folder_only_nographic_missing :
    needsSsh sharedFolderOnlyConfig = true ∧
    sharedFolderOnlyConfig.shared_folder ≠ [] ∧
    sharedFolderOnlyConfig.ssh_console = false ∧
    sharedFolderOnlyConfig.ssh_with_serial = false ∧
    sharedFolderOnlyConfig.ssh_command = Option.none ∧
    "-netdev" ∈ (qemuAddedDevices sharedFolderOnlyConfig [] 2222).1 ∧
    "-nographic" ∉ (qemuAddedDevices sharedFolderOnlyConfig [] 2222).1 := by
  decide

/-- C1 (amended): the network-forwarding arguments (`-netdev`, the `hostfwd`
entry for the used ssh port, `-device`, and its e1000 value) are present in
the arguments composed by `__qemu_added_devices` exactly when any of the
four interactive features holds (`__needs_ssh`), while `-nographic` is
present exactly when one of the three console features holds
(`__needs_ssh_console`: `ssh_console`, `ssh_with_serial`, or a non-None
`ssh_command`); when none of the four features holds the composed list is
just the disk-attachment arguments, so neither is present. -/
theorem netdev_mem_characterization (config : RunConfig) (images : List ImageInfo)
    (randomPort : Nat) :
    ("-netdev" ∈ (qemuAddedDevices config images randomPort).1 ↔ needsSsh config = true) ∧
    ("-nographic" ∈ (qemuAddedDevices config images randomPort).1 ↔
      needsSshConsole config = true) ∧
    (needsSsh config = true →
      hostfwdArg (usedSshPort config randomPort) ∈ (qemuAddedDevices config images randomPort).1 ∧
      "-device" ∈ (qemuAddedDevices config images randomPort).1 ∧
      "e1000,netdev=transient-sshdev" ∈ (qemuAddedDevices config images randomPort).1) ∧
    (needsSsh config = false →
      (qemuAddedDevices config images randomPort).1 = driveArgs images) := by
  by_cases hs : needsSsh config = true
  · by_cases hc : needsSshConsole config = true
    · have harr : (qemuAddedDevices config images randomPort).1 =
          (driveArgs images ++ ["-nographic"]) ++ netdevArgs (usedSshPort config randomPort) := by
        simp [qemuAddedDevices, hs, hc]
      rw [harr]
      refine ⟨iff_of_true ?_ hs, iff_of_true ?_ hc, fun _ => ⟨?_, ?_, ?_⟩,
        fun hcontra => absurd (hs.symm.trans hcontra) (by decide)⟩
      · simp [netdevArgs]
      · simp
      · simp [netdevArgs]
      · simp [netdevArgs]
      · simp [netdevArgs]
    · rw [Bool.not_eq_true] at hc
      have harr : (qemuAddedDevices config images randomPort).1 =
          driveArgs images ++ netdevArgs (usedSshPort config randomPort) := by
        simp [qemuAddedDevices, hs, hc]
      rw [harr]
      refine ⟨iff_of_true ?_ hs, iff_of_false ?_ (by simp [hc]), fun _ => ⟨?_, ?_, ?_⟩,
        fun hcontra => absurd (hs.symm.trans hcontra) (by decide)⟩
      · simp [netdevArgs]
      · intro h
        rcases List.mem_append.mp h with h | h
        · exact nographic_not_mem_driveArgs images h
        · exact nographic_not_mem_netdevArgs _ h
      · simp [netdevArgs]
      · simp [netdevArgs]
      · simp [netdevArgs]
  · rw [Bool.not_eq_true] at hs
    have hc : needsSshConsole config = false := by
      by_contra hcc
      rw [Bool.not_eq_false] at hcc
      rw [needsSsh_of_needsSshConsole hcc] at hs
      cases hs
    have harr : (qemuAddedDevices config images randomPort).1 = driveArgs images := by
      simp [qemuAddedDevices, hs]
    rw [harr]
    exact ⟨iff_of_false (netdev_not_mem_driveArgs images) (by simp [hs]),
      iff_of_false (nographic_not_mem_driveArgs images) (by simp [hc]),
      fun hcontra => absurd (hcontra.symm.trans hs) (by decide),
      fun _ => rfl⟩

/-- C1 (witness): the amended theorem applied to a console-requesting
configuration with random port 1000: the hostfwd argument for the allocated
port is present and the `-nographic` presence matches
`__needs_ssh_console`. -/
theorem netdev_mem_characterization_witness :
    hostfwdArg 1000 ∈ (qemuAddedDevices consoleRunConfig [] 1000).1 ∧
    ("-nographic" ∈ (qemuAddedDevices consoleRunConfig [] 1000).1 ↔
      needsSshConsole consoleRunConfig = true) :=
  ⟨((netdev_mem_characterization consoleRunConfig [] 1000).2.2.1 (by decide)).1,
   (netdev_mem_characterization consoleRunConfig [] 1000).2.1⟩

/-- C3: feeding `_parse_config_file` a file whose text is not valid TOML
does NOT produce a `ConfigFileParsingError`: `toml.loads` raises
`toml.TomlDecodeError` (a `ValueError` subclass), the `except RuntimeError`
clause does not match it, and the decode error propagates unchanged — the
claim describes the documented intent, the code's `except` clause is the
bug. -/
theorem parse_config_file_propagates_toml_decode_error
    (parse : String → Except String TomlDoc) (text msg : String)
    (h : parse text = Except.error msg) :
    parseConfigFile parse text = Except.error (PyExc.tomlDecodeError msg) ∧
    ∀ s, parseConfigFile parse text ≠ Except.error (PyExc.configFileParsingError s) := by
  have h1 : parseConfigFile parse text = Except.error (PyExc.tomlDecodeError msg) := by
    simp [parseConfigFile, tomlLoads, h, PyExc.isRuntimeError]
  refine ⟨h1, fun s hcontra => ?_⟩
  rw [h1] at hcontra
  exact PyExc.noConfusion (Except.error.inj hcontra)

/-- C3 (witness): the theorem applied to a concrete rejecting grammar and
the invalid document `"[transient"`. -/
theorem parse_config_file_propagates_toml_decode_error_witness :
    parseConfigFile failingParse "[transient" =
      Except.error (PyExc.tomlDecodeError "unclosed table") :=
  (parse_config_file_propagates_toml_decode_error failingParse "[transient"
    "unclosed table" rfl).1

/-- C4: in `_consolidate_cli_args_and_config_file`, an option whose CLI
value was explicitly supplied (not `None`, not the empty tuple, not `False`
— and for `qemu_args` not the empty tuple) keeps its CLI value, while an
option present in the file-derived config whose CLI value is unset takes
the file's value. -/
theorem consolidate_cli_precedence (cliArgs config d : Dict) (k : String)
    (hok : consolidateCliArgsAndConfigFile cliArgs config = Except.ok d)
    (hnodup : (config.map Prod.fst).Nodup) :
    (∀ v, dictGet cliArgs k = Option.some v → optionWasSetInCli v = true →
      ¬(k = "qemu_args" ∧ v = PyValue.tuple []) → dictGet d k = Option.some v) ∧
    (∀ v w, dictGet cliArgs k = Option.some v → optionWasSetInCli v = false →
      (k, w) ∈ config → dictGet d k = Option.some w) :=
  ⟨fun _ hv hset hq => consolidateAux_cli_wins hset hq config cliArgs d hok hv,
   fun _ _ hv hunset hmem =>
     consolidateAux_file_wins hunset config cliArgs d hok hnodup hv hmem⟩

/-- C4 (witness): merging `sampleCliArgs` with `sampleFileConfig` keeps the
explicitly supplied CLI `ssh_user` value `"alice"` and takes the file's
`name` value `"db"` for the unset CLI `name`. -/
theorem consolidate_cli_precedence_witness :
    consolidateCliArgsAndConfigFile sampleCliArgs sampleFileConfig = Except.ok sampleMerged ∧
    dictGet sampleMerged "ssh_user" = Option.some (PyValue.str "alice") ∧
    dictGet sampleMerged "name" = Option.some (PyValue.str "db") :=
  ⟨by rfl,
   (consolidate_cli_precedence sampleCliArgs sampleFileConfig sampleMerged "ssh_user"
      (by rfl) (by decide)).1 (PyValue.str "alice") (by decide) (by decide) (by decide),
   (consolidate_cli_precedence sampleCliArgs sampleFileConfig sampleMerged "name"
      (by rfl) (by decide)).2 PyValue.none (PyValue.str "db") (by decide) (by decide)
      (by decide)⟩

/-- C5 (counterexample): `remove_unset_options` checks `option == ()`, which
is Python tuple equality, so an option whose value is the empty LIST — an
"empty sequence" in the claim's words — is NOT removed, while the empty
tuple is; the claim's "empty sequence" reading fails on the empty list. -/
theorem remove_unset_keeps_empty_list_option :
    removeUnsetOptions [("image", PyValue.list [])] = [("image", PyValue.list [])] ∧
    removeUnsetOptions [("image", PyValue.tuple [])] = [] := by
  decide

/-- C5 (amended): `remove_unset_options` keeps an item exactly when its
value differs from each of the three unset sentinels `None`, the empty
TUPLE `()` (an empty list is kept), and `False`; every other item is kept
unchanged (membership is preserved exactly). -/
theorem remove_unset_options_mem (config : Dict) (k : String) (v : PyValue) :
    (k, v) ∈ removeUnsetOptions config ↔
      ((k, v) ∈ config ∧ v ≠ PyValue.none ∧ v ≠ PyValue.tuple [] ∧
        v ≠ PyValue.bool false) := by
  induction config with
  | nil => simp [removeUnsetOptions]
  | cons kv rest ih =>
    obtain ⟨k₁, v₁⟩ := kv
    by_cases hw : optionWasSetInCli v₁ = true
    · obtain ⟨h1, h2, h3⟩ := (optionWasSetInCli_eq_true_iff v₁).mp hw
      simp only [removeUnsetOptions, hw, if_true, List.mem_cons, ih]
      constructor
      · rintro (heq | ⟨hmem, hv1, hv2, hv3⟩)
        · injection heq with hk hv
          subst hk; subst hv
          exact ⟨Or.inl rfl, h1, h2, h3⟩
        · exact ⟨Or.inr hmem, hv1, hv2, hv3⟩
      · rintro ⟨heq | hmem, hv1, hv2, hv3⟩
        · exact Or.inl heq
        · exact Or.inr ⟨hmem, hv1, hv2, hv3⟩
    · rw [Bool.not_eq_true] at hw
      have hv₁ := (optionWasSetInCli_eq_false_iff v₁).mp hw
      simp only [removeUnsetOptions, hw, Bool.false_eq_true, if_false, ih, List.mem_cons]
      constructor
      · rintro ⟨hmem, hv1, hv2, hv3⟩
        exact ⟨Or.inr hmem, hv1, hv2, hv3⟩
      · rintro ⟨heq | hmem, hv1, hv2, hv3⟩
        · injection heq with hk hv
          subst hk; subst hv
          rcases hv₁ with h | h | h
          · exact absurd h hv1
          · exact absurd h hv2
          · exact absurd h hv3
        · exact ⟨hmem, hv1, hv2, hv3⟩

/-- C5 (witness): the amended theorem at a concrete mixed dict. -/
theorem remove_unset_options_mem_witness :
    ("ssh_user", PyValue.str "alice") ∈
        removeUnsetOptions [("ssh_user", PyValue.str "alice"), ("name", PyValue.none)] ↔
      (("ssh_user", PyValue.str "alice") ∈
          [("ssh_user", PyValue.str "alice"), ("name", PyValue.none)] ∧
        PyValue.str "alice" ≠ PyValue.none ∧
        PyValue.str "alice" ≠ PyValue.tuple [] ∧
        PyValue.str "alice" ≠ PyValue.bool false) :=
  remove_unset_options_mem [("ssh_user", PyValue.str "alice"), ("name", PyValue.none)]
    "ssh_user" (PyValue.str "alice")

/-- C2: for a session that reaches the wait stage (the run returned normally
and was not preparation-only), `TransientVm.run` returns the ssh
connection's exit status (`conn.returncode`) when an interactive console was
requested, and the hypervisor's own exit status (`qemu_runner.wait()`)
otherwise. -/
theorem run_returncode (config : RunConfig) (o : Oracle) (tr : List Event) (code : Int)
    (h : run config o = Except.ok (tr, code)) (hp : config.prepare_only = false) :
    (needsSshConsole config = true → code = o.connReturncode) ∧
    (needsSshConsole config = false → code = o.qemuWaitCode) := by
  simp only [run, hp, Bool.false_eq_true, if_false] at h
  cases hm : mountSharedFolders o
      (qemuAddedDevices config (createImages config o) o.randomPort).2
      config.shared_folder with
  | error e => rw [hm] at h; exact absurd h (by simp)
  | ok mountEvents =>
    rw [hm] at h
    dsimp only at h
    by_cases hc : needsSshConsole config = true
    · rw [if_pos hc] at h
      cases hcs : connectSsh config o
          (qemuAddedDevices config (createImages config o) o.randomPort).2
          (Option.some ()) with
      | error e => rw [hcs] at h; exact absurd h (by simp)
      | ok p =>
        obtain ⟨sshEvents, rc⟩ := p
        rw [hcs] at h
        dsimp only at h
        have hcode : code = rc := ((Prod.mk.injEq _ _ _ _ ▸ (Except.ok.inj h)).2).symm
        constructor
        · intro _
          rw [hcode]
          exact connectSsh_returncode hcs
        · intro hcontra
          rw [hcontra] at hc
          cases hc
    · rw [if_neg hc] at h
      have hcode : code = o.qemuWaitCode := ((Prod.mk.injEq _ _ _ _ ▸ (Except.ok.inj h)).2).symm
      constructor
      · intro hcontra
        exact absurd hcontra hc
      · intro _
        exact hcode

/-- C2 (witness): with the sample oracle (`connReturncode = 3`,
`qemuWaitCode = 7`), a console-requesting run returns 3 and a plain run
returns 7. -/
theorem run_returncode_witness :
    (3 : Int) = sampleOracle.connReturncode ∧ (7 : Int) = sampleOracle.qemuWaitCode :=
  ⟨(run_returncode consoleRunConfig sampleOracle _ 3 (by rfl) rfl).1 rfl,
   (run_returncode baseRunConfig sampleOracle _ 7 (by rfl) rfl).2 rfl⟩

/-- C6: with `prepare_only` set, `TransientVm.run` performs exactly one
`create_vm_image` call per requested image, in request order, with each
ordinal index equal to the image's position in the list, and returns 0; the
trace contains no hypervisor start. -/
theorem run_prepare_only_provisions_and_returns_zero (config : RunConfig) (o : Oracle)
    (h : config.prepare_only = true) :
    run config o =
      Except.ok
        (config.image.enum.map
          (fun p => Event.createImage p.2 config.name p.1 (o.createVmImage p.2 config.name p.1)),
         0) ∧
    ∀ (args : List String) (q s : Bool),
      Event.startQemu args q s ∉
        config.image.enum.map
          (fun p =>
            Event.createImage p.2 config.name p.1 (o.createVmImage p.2 config.name p.1)) := by
  constructor
  · simp [run, h, createImageEvents]
  · intro args q s
    exact startQemu_not_mem_createImageEvents config o args q s

/-- C6 (witness): the theorem applied to the two-image preparation-only
configuration and the sample oracle. -/
theorem run_prepare_only_witness :
    run prepareOnlyConfig sampleOracle =
      Except.ok
        (prepareOnlyConfig.image.enum.map
          (fun p => Event.createImage p.2 prepareOnlyConfig.name p.1
            (sampleOracle.createVmImage p.2 prepareOnlyConfig.name p.1)),
         0) :=
  (run_prepare_only_provisions_and_returns_zero prepareOnlyConfig sampleOracle rfl).1

/-- C7: the argument list composed by `__qemu_added_devices` begins with
exactly one `-drive`/`file=<path>` pair per provisioned image, in request
order, the remaining synthesized arguments contain no further `-drive`, and
the full hypervisor argument list prepends the synthesized arguments to the
user-supplied pass-through `qemu_args`. -/
theorem qemu_added_devices_drive_order (config : RunConfig) (images : List ImageInfo)
    (randomPort : Nat) :
    ∃ rest,
      (qemuAddedDevices config images randomPort).1 =
        images.flatMap (fun i => ["-drive", "file=" ++ i.path]) ++ rest ∧
      "-drive" ∉ rest ∧
      fullQemuArgs config images randomPort =
        (qemuAddedDevices config images randomPort).1 ++ config.qemu_args := by
  have hdrive_netdev : "-drive" ∉ netdevArgs (usedSshPort config randomPort) := by
    intro h
    simp only [netdevArgs, List.mem_cons, List.mem_singleton, List.not_mem_nil, or_false] at h
    rcases h with h | h | h | h
    · exact absurd h (by decide)
    · exact hostfwdArg_ne_drive _ h.symm
    · exact absurd h (by decide)
    · exact absurd h (by decide)
  by_cases hs : needsSsh config = true
  · by_cases hc : needsSshConsole config = true
    · refine ⟨["-nographic"] ++ netdevArgs (usedSshPort config randomPort), ?_, ?_, rfl⟩
      · simp [qemuAddedDevices, hs, hc, driveArgs]
      · intro h
        rcases List.mem_append.mp h with h | h
        · exact absurd (List.mem_singleton.mp h) (by decide)
        · exact hdrive_netdev h
    · rw [Bool.not_eq_true] at hc
      refine ⟨netdevArgs (usedSshPort config randomPort), ?_, hdrive_netdev, rfl⟩
      simp [qemuAddedDevices, hs, hc, driveArgs]
  · rw [Bool.not_eq_true] at hs
    refine ⟨[], ?_, by simp, rfl⟩
    simp [qemuAddedDevices, hs, driveArgs]

/-- C8: the `quiet`/`silenceable` pair passed to `QemuRunner` is never both
true; when an interactive console is needed exactly one of them is true,
`ssh_with_serial` selecting silenceable-not-quiet and every other console
request (in particular `ssh_console` alone) selecting quiet-not-silenceable;
every hypervisor start a completed run performs carries exactly this
pair. -/
theorem qemu_output_policy_props (config : RunConfig) :
    ¬((qemuOutputPolicy config).1 = true ∧ (qemuOutputPolicy config).2 = true) ∧
    (needsSshConsole config = true →
      ((qemuOutputPolicy config).1 = true ∧ (qemuOutputPolicy config).2 = false) ∨
      ((qemuOutputPolicy config).1 = false ∧ (qemuOutputPolicy config).2 = true)) ∧
    (needsSshConsole config = false → qemuOutputPolicy config = (false, false)) ∧
    (config.ssh_with_serial = true → qemuOutputPolicy config = (false, true)) ∧
    (config.ssh_console = true → config.ssh_with_serial = false →
      qemuOutputPolicy config = (true, false)) ∧
    (∀ (o : Oracle) (tr : List Event) (code : Int) (args : List String) (q s : Bool),
      run config o = Except.ok (tr, code) → Event.startQemu args q s ∈ tr →
      (q, s) = qemuOutputPolicy config) := by
  refine ⟨?_, ?_, ?_, ?_, ?_, ?_⟩
  · unfold qemuOutputPolicy
    by_cases hc : needsSshConsole config = true
    · by_cases hser : config.ssh_with_serial = true <;> simp [hc, hser]
    · simp [hc]
  · intro hc
    unfold qemuOutputPolicy
    by_cases hser : config.ssh_with_serial = true <;> simp [hc, hser]
  · intro hc
    unfold qemuOutputPolicy
    simp [hc]
  · intro hser
    unfold qemuOutputPolicy
    simp [needsSshConsole_of_serial hser, hser]
  · intro hcon hser
    unfold qemuOutputPolicy
    simp [needsSshConsole_of_console hcon, hser]
  · intro o tr code args q s h hmem
    obtain ⟨-, hq, hs2⟩ := run_startQemu_spec config o tr code h args q s hmem
    rw [hq, hs2]

/-- C8 (witness): the theorem applied to the console-only configuration:
the quiet-not-silenceable policy is selected. -/
theorem qemu_output_policy_props_witness :
    qemuOutputPolicy consoleRunConfig = (true, false) :=
  (qemu_output_policy_props consoleRunConfig).2.2.2.2.1 rfl rfl

/-- C9: for an invalid file-sourced option,
`_log_error_message_for_invalid_config_file_option` reports the line number
of the first file line containing the option's hyphenated form
(`enumerate` starts at 1, so line `k` of the zero-based list is reported as
`1 + k`), and reports the error without any line number when no line
contains it. -/
theorem log_error_cites_first_line (option : List Char) (lines : List (List Char)) :
    (∀ k : Nat, k < lines.length →
      containsSeq (replaceUnderscoresWithHyphens option) (lines.getD k []) = true →
      (∀ j : Nat, j < k →
        containsSeq (replaceUnderscoresWithHyphens option) (lines.getD j []) = false) →
      logErrorMessageForOption option lines =
        LogMessage.invalidOptionOnLine (1 + (k : Int))
          (replaceUnderscoresWithHyphens option)) ∧
    ((∀ j : Nat, j < lines.length →
        containsSeq (replaceUnderscoresWithHyphens option) (lines.getD j []) = false) →
      logErrorMessageForOption option lines =
        LogMessage.invalidOption (replaceUnderscoresWithHyphens option)) := by
  constructor
  · intro k hk hmatch hbefore
    have hnum : getLineNumberOfOptionInConfigFile
        (replaceUnderscoresWithHyphens option) lines = 1 + (k : Int) :=
      getLineNumberAux_of_first_match lines k 1 hk hmatch hbefore
    simp only [logErrorMessageForOption, hnum]
    rw [if_pos (by omega)]
  · intro hnone
    have hnum : getLineNumberOfOptionInConfigFile
        (replaceUnderscoresWithHyphens option) lines = -1 :=
      getLineNumberAux_of_no_match lines 1 hnone
    simp only [logErrorMessageForOption, hnum]
    rw [if_neg (by simp)]

/-- C9 (witness): the option `ssh_port`, hyphenated to `ssh-port`, first
appears on the second line of a two-line file, and the logged message cites
line 2. -/
theorem log_error_cites_first_line_witness :
    logErrorMessageForOption "ssh_port".data ["# settings".data, "ssh-port = 5".data] =
      LogMessage.invalidOptionOnLine (1 + (1 : Int))
        (replaceUnderscoresWithHyphens "ssh_port".data) :=
  (log_error_cites_first_line "ssh_port".data
      ["# settings".data, "ssh-port = 5".data]).1 1 (by decide) (by decide)
    (fun j hj => by
      have hj0 : j = 0 := by omega
      subst hj0
      decide)

theorem run_no_assert (config : RunConfig) (o : Oracle) :
    run config o ≠ Except.error RunExc.assertionError := by
  by_cases hp : config.prepare_only = true
  · simp [run, hp]
  · rw [Bool.not_eq_true] at hp
    simp only [run, hp, Bool.false_eq_true, if_false]
    by_cases hs : needsSsh config = true
    · obtain ⟨sc, hsc⟩ : ∃ sc, (qemuAddedDevices config (createImages config o) o.randomPort).2
          = Option.some sc := by
        rw [qemuAddedDevices_snd, if_pos hs]
        exact ⟨_, rfl⟩
      rw [hsc]
      cases hm : mountSharedFolders o (Option.some sc) config.shared_folder with
      | error e =>
        dsimp only
        intro hcontra
        have : e = RunExc.assertionError := by injection hcontra
        exact mountSharedFolders_ne_assert o sc config.shared_folder (this ▸ hm)
      | ok mountEvents =>
        dsimp only
        by_cases hc : needsSshConsole config = true
        · rw [if_pos hc]
          simp [connectSsh]
        · rw [if_neg hc]
          simp
    · rw [Bool.not_eq_true] at hs
      have hsf : config.shared_folder = [] := shared_folder_eq_nil_of_not_needsSsh hs
      have hc : needsSshConsole config = false := by
        by_contra hcc
        rw [Bool.not_eq_false] at hcc
        rw [needsSsh_of_needsSshConsole hcc] at hs
        cases hs
      rw [hsf]
      simp only [mountSharedFolders]
      rw [hc]
      simp

/-- C10: no execution of `TransientVm.run` fails the `assert` on
`ssh_config` in the shared-folder mount loop or the asserts in
`__connect_ssh`: every run either completes normally or raises the
`ValueError` from unpacking a malformed shared-folder spec — an
`AssertionError` outcome is impossible, because whenever those paths are
reached `__qemu_added_devices` has already set `ssh_config` (a non-empty
`shared_folder` or any console feature makes `__needs_ssh` true) and
`qemu_runner` was set at launch. -/
theorem run_assertions_always_hold (config : RunConfig) (o : Oracle) :
    run config o = Except.error RunExc.valueError ∨
    ∃ (trace : List Event) (returncode : Int), run config o = Except.ok (trace, returncode) := by
  cases hr : run config o with
  | error e =>
    cases e with
    | assertionError => exact absurd hr (run_no_assert config o)
    | valueError => exact Or.inl rfl
  | ok p =>
    obtain ⟨trace, returncode⟩ := p
    exact Or.inr ⟨trace, returncode, rfl⟩

end Transient
